import Mathlib

/-!
Shallow embedding of the marshalling and resource-lifecycle core of the
mruby socket gem (`src/socket.c`): the sockaddr codec
(`mrb_socket_sockaddr_un`, `mrb_socket_sockaddr_family`,
`mrb_addrinfo_unix_path`, `sa2addrlist`), the socket-option codec inside
`mrb_basicsocket_setsockopt` / `mrb_basicsocket_getsockopt`, the
process-wide addrinfo cache threaded through `mrb_addrinfo_getaddrinfo`
and `mrb_mruby_socket_gem_final`, and the `IPSocket.ntop` / `IPSocket.pton`
wrappers.

Byte buffers (mruby strings holding binary OS structures) are `List Nat`,
one element per byte.  Structure layouts follow the 64-bit Linux ABI the
gem is compiled against: `struct sockaddr` is 16 bytes with a 2-byte
little-endian `sa_family_t` at offset 0; `struct sockaddr_un` is 110 bytes
with the 108-byte `sun_path` field at offset 2; `struct sockaddr_in` /
`sockaddr_in6` store the port in network byte order at offset 2; `int` is
4 bytes and `mrb_int` is the default `int`-sized configuration.

External OS primitives (`getaddrinfo`, `getnameinfo`, `getsockname`,
`getsockopt`) are modelled as explicit outcome parameters; the libc
numeric converters `inet_ntop` / `inet_pton` are modelled from the spec
(see their doc comments).  A fresh `mrb_str_buf_new` buffer is malloc
memory, so its initial contents are an arbitrary byte list (`junk`)
threaded explicitly.
-/

/-! Platform constants. -/

def AF_UNSPEC : Nat := 0

def AF_UNIX : Nat := 1

def AF_INET : Nat := 2

def AF_INET6 : Nat := 10

def NI_NUMERICHOST : Nat := 1

def sizeof_sockaddr : Nat := 16

/-- Capacity of the `sun_path` field of `struct sockaddr_un`. -/
def sun_path_size : Nat := 108

def sizeof_sockaddr_un : Nat := 110

def sizeof_int : Nat := 4

/-- The gem is built with mruby's default integer configuration, where
`mrb_int` is `int` (4 bytes). -/
def sizeof_mrb_int : Nat := 4

/-! Byte-level helpers. -/

/-- Two bytes of a 16-bit value stored little-endian (the in-memory layout
of `sa_family_t` on a little-endian platform). -/
def encodeU16LE (v : Nat) : List Nat := [v % 256, v / 256 % 256]

/-- Read a 16-bit little-endian value at byte offset `off`; `none` when the
read would go past the end of the buffer. -/
def readU16LE (l : List Nat) (off : Nat) : Option Nat :=
  match l[off]?, l[off + 1]? with
  | some a, some b => some (a + 256 * b)
  | _, _ => none

/-- Read a 16-bit value stored in network byte order at offset `off` and
convert it to the host value (the composition of the memory load with
`ntohs`); `none` when the read would go past the end of the buffer. -/
def readU16BE (l : List Nat) (off : Nat) : Option Nat :=
  match l[off]?, l[off + 1]? with
  | some a, some b => some (a * 256 + b)
  | _, _ => none

/-- Little-endian byte image of a signed machine integer of width `w`
bytes (two's complement). -/
def intLE (w : Nat) (n : Int) : List Nat :=
  (List.range w).map (fun i => (n % (2 : Int) ^ (8 * w)).toNat / 256 ^ i % 256)

/-- Outcome of a decode operation: a value, a raised Ruby error, or a read
past the end of the buffer (out-of-bounds memory access). -/
inductive DecodeResult (α : Type) where
  | ok : α → DecodeResult α
  | err : String → DecodeResult α
  | oob : DecodeResult α
deriving DecidableEq

/-- True exactly when the decode raised a Ruby error. -/
def isErrResult {α : Type} : DecodeResult α → Bool
  | .err _ => true
  | _ => false

/-! SockaddrCodec. -/

/-- `mrb_socket_sockaddr_family` (socket.c:541-551): length-checks the
buffer against `sizeof(struct sockaddr)` before reading `sa_family`. -/
def sockaddr_family (sa : List Nat) : DecodeResult Nat :=
  if sa.length < sizeof_sockaddr then .err "invalid sockaddr (too short)"
  else
    match readU16LE sa 0 with
    | some f => .ok f
    | none => .oob

/-- The bytes `mrb_str_new_cstr` copies out of a buffer: everything before
the first NUL.  When the buffer holds no NUL the C read runs beyond the
buffer's bytes, modelled as `none`. -/
def readCStr (l : List Nat) : Option (List Nat) :=
  if 0 ∈ l then some (l.takeWhile (fun c => c != 0)) else none

/-- `mrb_addrinfo_unix_path` (socket.c:131-140): reads `sa_family` and then
`sun_path` with no length validation of `@sockaddr` at all. -/
def unix_path (sa : List Nat) : DecodeResult (List Nat) :=
  match readU16LE sa 0 with
  | none => .oob
  | some fam =>
    if fam ≠ AF_UNIX then .err "need AF_UNIX address"
    else
      match readCStr (sa.drop 2) with
      | some p => .ok p
      | none => .oob

/-- Result quadruple of `sa2addrlist`: `["AF_…", port, host, host]`. -/
structure AddrList where
  af : String
  port : Nat
  host : List Nat
  host2 : List Nat
deriving DecidableEq

/-- `sa2addrlist` (socket.c:142-173).  `gni` is the outcome of the external
`getnameinfo` primitive as a function of the sockaddr bytes and the flag
word passed to it (`none` models the failure sentinel).  The family and
`sin_port`/`sin6_port` fields are read with no length validation. -/
def sa2addrlist (gni : List Nat → Nat → Option (List Nat)) (sa : List Nat) :
    DecodeResult AddrList :=
  match readU16LE sa 0 with
  | none => .oob
  | some fam =>
    if fam = AF_INET then
      match readU16BE sa 2 with
      | none => .oob
      | some port =>
        match gni sa NI_NUMERICHOST with
        | none => .err "getnameinfo"
        | some host => .ok ⟨"AF_INET", port, host, host⟩
    else if fam = AF_INET6 then
      match readU16BE sa 2 with
      | none => .oob
      | some port =>
        match gni sa NI_NUMERICHOST with
        | none => .err "getnameinfo"
        | some host => .ok ⟨"AF_INET6", port, host, host⟩
    else .err "bad af"

/-- `mrb_socket_sockaddr_un` (socket.c:553-570).  The output buffer comes
from `mrb_str_buf_new` (malloc memory), so its initial bytes are the
arbitrary list `junk`; the function overlays the 2-byte family tag, the
path and one terminating NUL onto its front and never touches the rest. -/
def sockaddr_un_encode (junk path : List Nat) : Except String (List Nat) :=
  if path.length > sun_path_size - 1 then
    .error "too long unix socket path (max: 107bytes)"
  else
    .ok (encodeU16LE AF_UNIX ++ path ++ [0] ++ junk.drop (3 + path.length))

/-- Run a decode operation on the buffer produced by an encode step,
propagating the encode error. -/
def decodeEncoded {α : Type} (f : List Nat → DecodeResult α)
    (e : Except String (List Nat)) : DecodeResult α :=
  match e with
  | .ok buf => f buf
  | .error m => .err m

/-! OptionCodec. -/

/-- The possible mruby value kinds reaching the `optval` coercion of the
three-argument form of `mrb_basicsocket_setsockopt` (socket.c:347-378). -/
inductive OptVal where
  | str (bytes : List Nat)
  | boolv (b : Bool)
  | fixnum (n : Int)
  | other

/-- The `optval` coercion inside `mrb_basicsocket_setsockopt`: a string
passes through verbatim, true/false and fixnums are rewritten as the raw
bytes of an `mrb_int`, anything else raises. -/
def setsockopt_coerce : OptVal → Except String (List Nat)
  | .str bs => .ok bs
  | .boolv b => .ok (intLE sizeof_mrb_int (if b then 1 else 0))
  | .fixnum n => .ok (intLE sizeof_mrb_int n)
  | .other => .error "optval should be true, false, an integer, or a string"

/-- `socket_family` (socket.c:181-191): the argument is the outcome of the
`getsockname` syscall, `some fam` reporting the bound family, `none` the
failure sentinel, which falls back to `AF_UNSPEC`. -/
def socket_family (gsn : Option Nat) : Nat :=
  match gsn with
  | none => AF_UNSPEC
  | some fam => fam

/-- The `Socket::Option` descriptor built by `mrb_basicsocket_getsockopt`. -/
structure SockOpt where
  family : Nat
  level : Int
  optname : Int
  data : List Nat
deriving DecidableEq

/-- `mrb_basicsocket_getsockopt` (socket.c:242-259): `gso` is the outcome
of the `getsockopt` syscall (the `int` it wrote, or `none` on failure),
`gsn` the outcome of the `getsockname` call inside `socket_family`. -/
def getsockopt_read (gso : Option Int) (gsn : Option Nat)
    (level optname : Int) : Except String SockOpt :=
  match gso with
  | none => .error "getsockopt"
  | some opt => .ok ⟨socket_family gsn, level, optname, intLE sizeof_int opt⟩

/-! AddrinfoResolver: the process-wide `_lastai` class-variable slot. -/

/-- State of the `_lastai` cache slot: `nil` or a `voidp` holding the
OS list pointer (identified by a number). -/
inductive AiCache where
  | empty
  | holding (p : Nat)
deriving DecidableEq

/-- The mruby value kinds relevant to the `nodename` / `service` argument
validation of `mrb_addrinfo_getaddrinfo`. -/
inductive MVal where
  | str (s : List Nat)
  | fixnum (n : Int)
  | nilv
  | other

/-- nodename must be String or nil (socket.c:49-55). -/
def validNodename : MVal → Bool
  | .str _ => true
  | .nilv => true
  | _ => false

/-- service must be String, Fixnum, or nil (socket.c:57-65). -/
def validService : MVal → Bool
  | .str _ => true
  | .fixnum _ => true
  | .nilv => true
  | _ => false

/-- One node of the OS-allocated `addrinfo` list. -/
structure OSAi where
  ai_family : Int
  ai_socktype : Int
  ai_protocol : Int
  ai_addr : List Nat
deriving DecidableEq

/-- One materialized `Addrinfo` entry (the four `new` arguments at
socket.c:92, the sockaddr bytes being an independent copy). -/
structure AiEntry where
  addr : List Nat
  family : Int
  socktype : Int
  protocol : Int
deriving DecidableEq

/-- The errors `mrb_addrinfo_getaddrinfo` can raise. -/
inductive RErr where
  | typeError (msg : String)
  | socketError (msg : String)
deriving DecidableEq

/-- socket.c:78-82: free a held list and reset the slot to nil; returns the
new cache state and the list pointers released. -/
def cleanupLastai (c : AiCache) : AiCache × List Nat :=
  match c with
  | .holding p => (.empty, [p])
  | .empty => (.empty, [])

def entryOfOS (r : OSAi) : AiEntry :=
  ⟨r.ai_addr, r.ai_family, r.ai_socktype, r.ai_protocol⟩

/-- Exit record of one `mrb_addrinfo_getaddrinfo` call: the final `_lastai`
state, every list pointer passed to `freeaddrinfo` during the call, and the
returned array or raised error. -/
structure ResolveOut where
  cache : AiCache
  released : List Nat
  result : Except RErr (List AiEntry)

/-- `mrb_addrinfo_getaddrinfo` (socket.c:30-101).  `gai` is the outcome of
the external `getaddrinfo` primitive: a nonzero status, or the fresh list
pointer with its nodes.  The steps follow the source order: argument
validation (lines 49-65) first, then the `_lastai` cleanup (lines 78-82),
then the OS call (84-87), then caching, materialization and release
(88-98). -/
def resolve (gai : Except Nat (Nat × List OSAi)) (c0 : AiCache)
    (nodename service : MVal) : ResolveOut :=
  if validNodename nodename = false then
    ⟨c0, [], .error (.typeError "nodename must be String or nil")⟩
  else if validService service = false then
    ⟨c0, [], .error (.typeError "service must be String, Fixnum, or nil")⟩
  else
    match gai with
    | .error _ =>
      ⟨(cleanupLastai c0).1, (cleanupLastai c0).2,
        .error (.socketError "getaddrinfo")⟩
    | .ok (p, lst) =>
      ⟨.empty, (cleanupLastai c0).2 ++ [p], .ok (lst.map entryOfOS)⟩

/-- True on the success exit and on the `getaddrinfo`-failure exit, false
on a type-error exit. -/
def isNormalExit : Except RErr (List AiEntry) → Bool
  | .ok _ => true
  | .error (.socketError _) => true
  | .error (.typeError _) => false

/-- True exactly on a type-error exit. -/
def isTypeErrorExit : Except RErr (List AiEntry) → Bool
  | .error (.typeError _) => true
  | _ => false

/-- `mrb_mruby_socket_gem_final` (socket.c:679-687): frees a held list but
never writes `_lastai` back, so the slot still holds the freed pointer.
Returns the new cache state and the pointers released. -/
def gem_final (c : AiCache) : AiCache × List Nat :=
  match c with
  | .holding p => (.holding p, [p])
  | .empty => (.empty, [])

/-! Numeric presentation codec (`IPSocket.ntop` / `IPSocket.pton`).
Presentation text is a `List Nat` of character codes. -/

def isDigit (c : Nat) : Bool := decide (48 ≤ c ∧ c ≤ 57)

/-- Decimal text of one byte value, as printed by `%u` for values below
256 (no leading zeros). -/
def decStr (b : Nat) : List Nat :=
  if b < 10 then [48 + b]
  else if b < 100 then [48 + b / 10, 48 + b % 10]
  else [48 + b / 100, 48 + b / 10 % 10, 48 + b % 10]

def decValue (s : List Nat) : Nat := s.foldl (fun a c => a * 10 + (c - 48)) 0

/-- Parse one dotted-quad component: one to three decimal digits with
value at most 255. -/
def parseDec (s : List Nat) : Option Nat :=
  if s ≠ [] ∧ s.length ≤ 3 ∧ s.all isDigit = true ∧ decValue s ≤ 255 then
    some (decValue s)
  else none

def isHexDigit (c : Nat) : Bool :=
  decide ((48 ≤ c ∧ c ≤ 57) ∨ (65 ≤ c ∧ c ≤ 70) ∨ (97 ≤ c ∧ c ≤ 102))

/-- Lowercase hex digit of a nibble. -/
def hexDig (x : Nat) : Nat := if x < 10 then 48 + x else 87 + x

/-- Value of a hex digit character (either case). -/
def hexVal (c : Nat) : Nat :=
  if c ≤ 57 then c - 48 else if c ≤ 70 then c - 55 else c - 87

/-- Four-hex-digit text of one 16-bit group. -/
def hexStr4 (g : Nat) : List Nat :=
  [hexDig (g / 4096 % 16), hexDig (g / 256 % 16), hexDig (g / 16 % 16),
   hexDig (g % 16)]

def hexValue (s : List Nat) : Nat := s.foldl (fun a c => a * 16 + hexVal c) 0

/-- Parse one colon-separated group: one to four hex digits. -/
def parseHexGroup (s : List Nat) : Option Nat :=
  if s ≠ [] ∧ s.length ≤ 4 ∧ s.all isHexDigit = true then some (hexValue s)
  else none

/-- Split a character list at every occurrence of `sep`. -/
def splitOnByte (sep : Nat) : List Nat → List (List Nat)
  | [] => [[]]
  | x :: xs =>
    match splitOnByte sep xs with
    | [] => [[]]
    | g :: gs => if x = sep then [] :: g :: gs else (x :: g) :: gs

/-- Join groups with a single `sep` between consecutive groups. -/
def joinSep (sep : Nat) : List (List Nat) → List Nat
  | [] => []
  | [g] => g
  | g :: gs => g ++ sep :: joinSep sep gs

/-- Big-endian 16-bit groups of a byte list (the eight `in6_addr` words). -/
def groups16 : List Nat → List Nat
  | b0 :: b1 :: rest => (b0 * 256 + b1) :: groups16 rest
  | _ => []

/-- Bytes of a list of 16-bit groups, big-endian per group. -/
def ungroup : List Nat → List Nat
  | [] => []
  | g :: gs => g / 256 :: g % 256 :: ungroup gs

/-- Parse every group or fail. -/
def parseGroups : List (List Nat) → Option (List Nat)
  | [] => some []
  | s :: ss =>
    match parseHexGroup s, parseGroups ss with
    | some v, some vs => some (v :: vs)
    | _, _ => none

/-- Modelled from the spec: the libc `inet_ntop` primitive called by
`mrb_ipsocket_ntop` is not part of this repository; per the spec it is the
binary-to-text half of the "textual↔binary numeric address conversion for
INET (4 bytes) and INET6 (16 bytes) only; any other length/family
combination fails".  INET uses dotted decimal; INET6 uses eight
colon-separated hex groups (emitted here in the fixed four-digit form). -/
def inet_ntop (af : Nat) (addr : List Nat) : Option (List Nat) :=
  if af = AF_INET then
    match addr with
    | [a, b, c, d] => some (joinSep 46 [decStr a, decStr b, decStr c, decStr d])
    | _ => none
  else if af = AF_INET6 then
    if addr.length = 16 then some (joinSep 58 ((groups16 addr).map hexStr4))
    else none
  else none

/-- Modelled from the spec: the libc `inet_pton` primitive called by
`mrb_ipsocket_pton` is not part of this repository; per the spec it is the
text-to-binary half of the numeric conversion ("malformed text fails the
same way"): a dotted quad for INET, eight colon-separated hex groups for
INET6. -/
def inet_pton (af : Nat) (text : List Nat) : Option (List Nat) :=
  if af = AF_INET then
    match splitOnByte 46 text with
    | [a, b, c, d] =>
      match parseDec a, parseDec b, parseDec c, parseDec d with
      | some va, some vb, some vc, some vd => some [va, vb, vc, vd]
      | _, _, _, _ => none
    | _ => none
  else if af = AF_INET6 then
    match parseGroups (splitOnByte 58 text) with
    | some vs => if vs.length = 8 then some (ungroup vs) else none
    | none => none
  else none

/-- `mrb_ipsocket_ntop` (socket.c:391-403): rejects a 4/16-byte length
mismatch for INET/INET6, then calls `inet_ntop` into a 50-byte buffer
(always large enough for the at most 45 characters a numeric address
needs) and fails if it returns the NULL sentinel. -/
def mrb_ipsocket_ntop (af : Nat) (addr : List Nat) : Except String (List Nat) :=
  if (af = AF_INET ∧ addr.length ≠ 4) ∨ (af = AF_INET6 ∧ addr.length ≠ 16) then
    .error "invalid address"
  else
    match inet_ntop af addr with
    | none => .error "invalid address"
    | some t => .ok t

/-- `mrb_ipsocket_pton` (socket.c:405-433): rejects text longer than the
49 usable bytes of its stack buffer, copies it and NUL-terminates, so
`inet_pton` parses the text truncated at its first NUL; any family other
than INET/INET6 is an unsupported-family error. -/
def mrb_ipsocket_pton (af : Nat) (text : List Nat) : Except String (List Nat) :=
  if text.length > 49 then .error "invalid address"
  else
    if af = AF_INET then
      match inet_pton AF_INET (text.takeWhile (fun c => c != 0)) with
      | some bs => .ok bs
      | none => .error "invalid address"
    else if af = AF_INET6 then
      match inet_pton AF_INET6 (text.takeWhile (fun c => c != 0)) with
      | some bs => .ok bs
      | none => .error "invalid address"
    else .error "unsupported address family"

/-- The round trip of the claims: parse back the presentation produced by
`mrb_ipsocket_ntop`, propagating its error. -/
def pton_after_ntop (af : Nat) (addr : List Nat) : Except String (List Nat) :=
  match mrb_ipsocket_ntop af addr with
  | .ok t => mrb_ipsocket_pton af t
  | .error m => .error m

/-! Helper lemmas. -/

theorem takeWhile_append_zero (p t : List Nat) (h : 0 ∉ p) :
    (p ++ 0 :: t).takeWhile (fun c => c != 0) = p := by
  induction p with
  | nil => simp [List.takeWhile]
  | cons x xs ih =>
    simp only [List.mem_cons, not_or] at h
    have hx : (x != 0) = true := by
      simpa [bne_iff_ne] using fun e => h.1 e.symm
    simp [List.takeWhile, hx, ih h.2]

theorem encoded_buf_shape (junk path : List Nat)
    (h : ¬ path.length > sun_path_size - 1) :
    sockaddr_un_encode junk path =
      Except.ok (1 :: 0 :: (path ++ 0 :: junk.drop (3 + path.length))) := by
  simp [sockaddr_un_encode, h, encodeU16LE, AF_UNIX]

theorem encoded_buf_length (junk path : List Nat)
    (hj : junk.length = sizeof_sockaddr_un)
    (h : path.length ≤ sun_path_size - 1) :
    (1 :: 0 :: (path ++ 0 :: junk.drop (3 + path.length))).length =
      sizeof_sockaddr_un := by
  simp [List.length_drop, hj]
  unfold sizeof_sockaddr_un sun_path_size at *
  omega

theorem sockaddr_family_of_encoded (junk path : List Nat)
    (hj : junk.length = sizeof_sockaddr_un)
    (h : path.length ≤ sun_path_size - 1) :
    sockaddr_family (1 :: 0 :: (path ++ 0 :: junk.drop (3 + path.length))) =
      DecodeResult.ok AF_UNIX := by
  have hl := encoded_buf_length junk path hj h
  have hge : ¬ (1 :: 0 :: (path ++ 0 :: junk.drop (3 + path.length))).length <
      sizeof_sockaddr := by
    rw [hl]; unfold sizeof_sockaddr_un sizeof_sockaddr; omega
  simp only [sockaddr_family]
  rw [if_neg hge]
  simp [readU16LE, AF_UNIX]

theorem unix_path_of_encoded (junk path : List Nat) (hz : 0 ∉ path) :
    unix_path (1 :: 0 :: (path ++ 0 :: junk.drop (3 + path.length))) =
      DecodeResult.ok path := by
  simp [unix_path, readU16LE, AF_UNIX, readCStr,
    takeWhile_append_zero _ _ hz]

/-! Claim theorems: resolver lifecycle. -/

/-- C1: after any completed call to `resolve` (`Addrinfo.getaddrinfo`) the
process-wide `_lastai` slot is Empty on both the success path and the
OS-failure path; on success the fresh list is released and the slot reset
before returning, so no completed call leaves a Holding state behind. -/
theorem resolve_cache_empty :
    (∀ (gai : Except Nat (Nat × List OSAi)) (c0 : AiCache) (n s : MVal),
       isNormalExit (resolve gai c0 n s).result = true →
       (resolve gai c0 n s).cache = AiCache.empty)
    ∧ (∀ (p : Nat) (lst : List OSAi) (c0 : AiCache) (n s : MVal),
       validNodename n = true → validService s = true →
       (resolve (Except.ok (p, lst)) c0 n s).cache = AiCache.empty
       ∧ p ∈ (resolve (Except.ok (p, lst)) c0 n s).released) := by
  constructor
  · intro gai c0 n s h
    cases hn : validNodename n with
    | false => simp [resolve, hn, isNormalExit] at h
    | true =>
      cases hs : validService s with
      | false => simp [resolve, hn, hs, isNormalExit] at h
      | true =>
        cases gai with
        | error e => cases c0 <;> simp [resolve, hn, hs, cleanupLastai]
        | ok pr => obtain ⟨p, lst⟩ := pr; simp [resolve, hn, hs]
  · intro p lst c0 n s hn hs
    refine ⟨by simp [resolve, hn, hs], ?_⟩
    simp [resolve, hn, hs]

/-- Witness for C1 at concrete inputs: an OS-failure call and a successful
call, both starting from a Holding cache. -/
theorem resolve_cache_empty_witness :
    (resolve (Except.error 1) (AiCache.holding 5) (MVal.str []) MVal.nilv).cache
      = AiCache.empty
    ∧ (resolve (Except.ok (7, [])) (AiCache.holding 5) (MVal.str []) MVal.nilv).cache
      = AiCache.empty
    ∧ 7 ∈ (resolve (Except.ok (7, [])) (AiCache.holding 5) (MVal.str [])
        MVal.nilv).released :=
  ⟨resolve_cache_empty.1 (Except.error 1) (AiCache.holding 5) (MVal.str [])
      MVal.nilv rfl,
   (resolve_cache_empty.2 7 [] (AiCache.holding 5) (MVal.str []) MVal.nilv
      rfl rfl).1,
   (resolve_cache_empty.2 7 [] (AiCache.holding 5) (MVal.str []) MVal.nilv
      rfl rfl).2⟩

/-- C8 counterexample: with a Holding cache and a non-String, non-nil
nodename, the type-error exit of `resolve` happens before the `_lastai`
cleanup, leaving the previously held list unreleased — validation is NOT
preceded by the cleanup step as claimed. -/
theorem resolve_order_cex :
    resolve (Except.ok (0, [])) (AiCache.holding 5) MVal.other MVal.nilv =
      ⟨AiCache.holding 5, [],
        Except.error (RErr.typeError "nodename must be String or nil")⟩
    ∧ AiCache.holding 5 ≠ AiCache.empty :=
  ⟨rfl, by decide⟩

/-- C8 (amended): `resolve` validates the nodename and service arguments
first; a type-error exit leaves the cache slot unchanged with nothing
released — only after validation passes is a Holding list released, and
that happens on every remaining path. -/
theorem resolve_validates_before_cleanup :
    (∀ (gai : Except Nat (Nat × List OSAi)) (c0 : AiCache) (n s : MVal),
       (validNodename n = false ∨ validService s = false) →
       (resolve gai c0 n s).cache = c0 ∧ (resolve gai c0 n s).released = []
       ∧ isTypeErrorExit (resolve gai c0 n s).result = true)
    ∧ (∀ (gai : Except Nat (Nat × List OSAi)) (p : Nat) (n s : MVal),
       validNodename n = true → validService s = true →
       p ∈ (resolve gai (AiCache.holding p) n s).released) := by
  constructor
  · intro gai c0 n s h
    cases hn : validNodename n with
    | false => simp [resolve, hn, isTypeErrorExit]
    | true =>
      cases hs : validService s with
      | false => simp [resolve, hn, hs, isTypeErrorExit]
      | true => rw [hn] at h; rw [hs] at h; simp at h
  · intro gai p n s hn hs
    cases gai with
    | error e => simp [resolve, hn, hs, cleanupLastai]
    | ok pr => obtain ⟨q, lst⟩ := pr; simp [resolve, hn, hs, cleanupLastai]

/-- Witness for the amended C8: a type-error exit from a Holding cache
keeps the slot and releases nothing; a validated call releases the held
pointer. -/
theorem resolve_validates_before_cleanup_witness :
    ((resolve (Except.error 1) (AiCache.holding 9) MVal.other MVal.nilv).cache
        = AiCache.holding 9
      ∧ (resolve (Except.error 1) (AiCache.holding 9) MVal.other
          MVal.nilv).released = []
      ∧ isTypeErrorExit (resolve (Except.error 1) (AiCache.holding 9)
          MVal.other MVal.nilv).result = true)
    ∧ 3 ∈ (resolve (Except.error 1) (AiCache.holding 3) (MVal.str [])
        MVal.nilv).released :=
  ⟨resolve_validates_before_cleanup.1 (Except.error 1) (AiCache.holding 9)
      MVal.other MVal.nilv (Or.inl rfl),
   resolve_validates_before_cleanup.2 (Except.error 1) 3 (MVal.str [])
      MVal.nilv rfl rfl⟩

/-- C9 counterexample: `gem_final` (the subsystem finalizer) never resets
the `_lastai` slot, so a second invocation releases the very same list
again — it is not idempotent. -/
theorem gem_final_idempotent_cex :
    (gem_final (gem_final (AiCache.holding 5)).1).2 = [5]
    ∧ ([5] : List Nat) ≠ [] :=
  ⟨rfl, by decide⟩

/-- C9 (amended): `gem_final` releases the held list when the cache is
Holding and does nothing when it is Empty, but it leaves the slot in the
Holding state (it never writes `_lastai` back), so it is not idempotent. -/
theorem gem_final_spec :
    (∀ p : Nat, gem_final (AiCache.holding p) = (AiCache.holding p, [p]))
    ∧ gem_final AiCache.empty = (AiCache.empty, []) :=
  ⟨fun _ => rfl, rfl⟩

/-! Claim theorems: option codec and getsockopt. -/

/-- C4: the `optval` coercion of the three-argument `setsockopt` form maps
true/false to 1/0 at the platform option integer width, a fixnum to its
bytes at the same width, passes a string through verbatim, and raises an
argument error naming the accepted kinds on anything else. -/
theorem setsockopt_coerce_spec :
    (setsockopt_coerce (OptVal.boolv true) = Except.ok (intLE sizeof_int 1)
      ∧ (intLE sizeof_int 1).length = sizeof_int)
    ∧ (setsockopt_coerce (OptVal.boolv false) = Except.ok (intLE sizeof_int 0)
      ∧ (intLE sizeof_int 0).length = sizeof_int)
    ∧ (∀ n : Int,
        setsockopt_coerce (OptVal.fixnum n) = Except.ok (intLE sizeof_int n)
        ∧ (intLE sizeof_int n).length = sizeof_int)
    ∧ (∀ bs : List Nat, setsockopt_coerce (OptVal.str bs) = Except.ok bs)
    ∧ setsockopt_coerce OptVal.other =
        Except.error "optval should be true, false, an integer, or a string"
    ∧ sizeof_mrb_int = sizeof_int := by
  refine ⟨⟨rfl, ?_⟩, ⟨rfl, ?_⟩, fun n => ⟨rfl, ?_⟩, fun bs => rfl, rfl, rfl⟩
  all_goals simp [intLE]

/-- C10: a `getsockopt` read whose `getsockname`-based family derivation
fails does not raise — the descriptor is still built, with its family field
silently falling back to `AF_UNSPEC`. -/
theorem getsockopt_family_fallback :
    (∀ (opt level optname : Int) (gsn : Option Nat),
       getsockopt_read (some opt) gsn level optname =
         Except.ok ⟨socket_family gsn, level, optname, intLE sizeof_int opt⟩)
    ∧ (∀ opt level optname : Int,
       getsockopt_read (some opt) none level optname =
         Except.ok ⟨AF_UNSPEC, level, optname, intLE sizeof_int opt⟩)
    ∧ socket_family none = AF_UNSPEC :=
  ⟨fun _ _ _ _ => rfl, fun _ _ _ => rfl, rfl⟩

/-! Claim theorems: sockaddr codec. -/

/-- C2: encoding a NUL-free UNIX path shorter than the `sun_path` capacity
with `Socket.sockaddr_un` and decoding the result yields the original
data: `Socket._sockaddr_family` reports `AF_UNIX` and `Addrinfo#unix_path`
returns the path, whatever the fresh buffer's initial contents were. -/
theorem sockaddr_un_roundtrip (junk path : List Nat)
    (hj : junk.length = sizeof_sockaddr_un)
    (hlen : path.length < sun_path_size) (hz : 0 ∉ path) :
    decodeEncoded sockaddr_family (sockaddr_un_encode junk path) =
      DecodeResult.ok AF_UNIX
    ∧ decodeEncoded unix_path (sockaddr_un_encode junk path) =
      DecodeResult.ok path := by
  have hle : ¬ path.length > sun_path_size - 1 := by
    unfold sun_path_size at *; omega
  rw [encoded_buf_shape junk path hle]
  exact ⟨sockaddr_family_of_encoded junk path hj (by omega),
    unix_path_of_encoded junk path hz⟩

/-- Witness for C2 at the concrete path "/tmp/app.sock" over an arbitrary
nonzero fresh-buffer fill. -/
theorem sockaddr_un_roundtrip_witness :
    decodeEncoded sockaddr_family (sockaddr_un_encode (List.replicate 110 7)
        [47, 116, 109, 112, 47, 97, 112, 112, 46, 115, 111, 99, 107]) =
      DecodeResult.ok AF_UNIX
    ∧ decodeEncoded unix_path (sockaddr_un_encode (List.replicate 110 7)
        [47, 116, 109, 112, 47, 97, 112, 112, 46, 115, 111, 99, 107]) =
      DecodeResult.ok [47, 116, 109, 112, 47, 97, 112, 112, 46, 115, 111, 99, 107] :=
  sockaddr_un_roundtrip (List.replicate 110 7)
    [47, 116, 109, 112, 47, 97, 112, 112, 46, 115, 111, 99, 107]
    (by decide) (by decide) (by decide)

/-- C3 counterexample: `Socket.sockaddr_un` never zeroes the freshly
allocated buffer, so with malloc contents of 255 bytes the bytes after the
terminating NUL are 255, not zero — the remainder is not zero-padded. -/
theorem sockaddr_un_zero_padding_cex :
    sockaddr_un_encode (List.replicate 110 255) [97] =
      Except.ok ([1, 0, 97, 0] ++ List.replicate 106 255)
    ∧ List.replicate 106 (255 : Nat) ≠ List.replicate 106 0 :=
  ⟨rfl, by decide⟩

/-- C3 (amended): `Socket.sockaddr_un` raises an `ArgumentError` exactly
when the path is longer than the `sun_path` capacity minus one, allocating
nothing in that case; otherwise it returns a `sizeof(struct sockaddr_un)`
byte buffer whose family tag is UNIX and whose path field holds the path
copied and NUL-terminated — the remaining bytes are the untouched contents
of the fresh (uninitialized) buffer, not guaranteed zero. -/
theorem sockaddr_un_encode_spec :
    (∀ junk path : List Nat,
       sockaddr_un_encode junk path =
         Except.error "too long unix socket path (max: 107bytes)"
       ↔ sun_path_size - 1 < path.length)
    ∧ (∀ junk path : List Nat, junk.length = sizeof_sockaddr_un →
       path.length ≤ sun_path_size - 1 →
       sockaddr_un_encode junk path =
         Except.ok (1 :: 0 :: (path ++ 0 :: junk.drop (3 + path.length)))
       ∧ (1 :: 0 :: (path ++ 0 :: junk.drop (3 + path.length))).length =
         sizeof_sockaddr_un
       ∧ sockaddr_family (1 :: 0 :: (path ++ 0 :: junk.drop (3 + path.length)))
         = DecodeResult.ok AF_UNIX) := by
  constructor
  · intro junk path
    by_cases h : sun_path_size - 1 < path.length
    · simp [sockaddr_un_encode, h]
    · simp [sockaddr_un_encode, h]
  · intro junk path hj h
    exact ⟨encoded_buf_shape junk path (by omega),
      encoded_buf_length junk path hj h,
      sockaddr_family_of_encoded junk path hj h⟩

/-- Witness for the amended C3: the oversized-path error at a 108-byte
path, and the success shape at the path "a" with an all-255 fresh buffer. -/
theorem sockaddr_un_encode_spec_witness :
    (sockaddr_un_encode [] (List.replicate 108 97) =
      Except.error "too long unix socket path (max: 107bytes)")
    ∧ sockaddr_un_encode (List.replicate 110 255) [97] =
      Except.ok (1 :: 0 :: ([97] ++ 0 :: (List.replicate 110 255).drop 4))
    ∧ (1 :: 0 :: ([97] ++ 0 :: (List.replicate 110 255).drop 4)).length =
      sizeof_sockaddr_un :=
  ⟨(sockaddr_un_encode_spec.1 [] (List.replicate 108 97)).2 (by decide),
   (sockaddr_un_encode_spec.2 (List.replicate 110 255) [97] (by decide)
      (by decide)).1,
   (sockaddr_un_encode_spec.2 (List.replicate 110 255) [97] (by decide)
      (by decide)).2.1⟩

/-- C5 counterexample: a 2-byte buffer is shorter than the minimal generic
address header, yet `Addrinfo#unix_path` does not fail with an error — it
reads past the end of the buffer (no length validation at all). -/
theorem undersized_decode_cex :
    ([1, 0] : List Nat).length < sizeof_sockaddr
    ∧ isErrResult (unix_path [1, 0]) = false
    ∧ unix_path [1, 0] = DecodeResult.oob :=
  ⟨by decide, rfl, rfl⟩

/-- C5 (amended): of the three decode operations only
`Socket._sockaddr_family` validates the buffer length before
reinterpreting it (failing with an error on every undersized buffer);
`Addrinfo#unix_path` and `sa2addrlist` perform no length validation and
read past the bound of an undersized buffer. -/
theorem undersized_decode_spec :
    (∀ sa : List Nat, sa.length < sizeof_sockaddr →
       sockaddr_family sa = DecodeResult.err "invalid sockaddr (too short)")
    ∧ unix_path [1, 0] = DecodeResult.oob
    ∧ sa2addrlist (fun _ _ => some []) [2, 0] = DecodeResult.oob := by
  refine ⟨fun sa h => ?_, rfl, rfl⟩
  simp [sockaddr_family, h]

/-- Witness for the amended C5 at the empty buffer. -/
theorem undersized_decode_spec_witness :
    sockaddr_family [] = DecodeResult.err "invalid sockaddr (too short)" :=
  undersized_decode_spec.1 [] (by decide)

/-- C7: `sa2addrlist` supports only the INET and INET6 families, failing
with the unsupported-family error on every other readable family; for INET
and INET6 the returned port is the network-byte-order port field converted
to host order, and the numeric host string is whatever the `getnameinfo`
primitive produces under the `NI_NUMERICHOST` flag (never a reverse DNS
lookup). -/
theorem sa2addrlist_spec :
    (∀ (gni : List Nat → Nat → Option (List Nat)) (sa : List Nat) (fam : Nat),
       readU16LE sa 0 = some fam → fam ≠ AF_INET → fam ≠ AF_INET6 →
       sa2addrlist gni sa = DecodeResult.err "bad af")
    ∧ (∀ (gni : List Nat → Nat → Option (List Nat)) (hi lo : Nat)
        (rest host : List Nat),
       gni (2 :: 0 :: hi :: lo :: rest) NI_NUMERICHOST = some host →
       sa2addrlist gni (2 :: 0 :: hi :: lo :: rest) =
         DecodeResult.ok ⟨"AF_INET", hi * 256 + lo, host, host⟩)
    ∧ (∀ (gni : List Nat → Nat → Option (List Nat)) (hi lo : Nat)
        (rest host : List Nat),
       gni (10 :: 0 :: hi :: lo :: rest) NI_NUMERICHOST = some host →
       sa2addrlist gni (10 :: 0 :: hi :: lo :: rest) =
         DecodeResult.ok ⟨"AF_INET6", hi * 256 + lo, host, host⟩) := by
  refine ⟨fun gni sa fam h h2 h6 => ?_, fun gni hi lo rest host hg => ?_,
    fun gni hi lo rest host hg => ?_⟩
  · simp [sa2addrlist, h, h2, h6]
  · simp [sa2addrlist, readU16LE, readU16BE, AF_INET, AF_INET6,
      NI_NUMERICHOST] at hg ⊢
    simp [hg]
  · simp [sa2addrlist, readU16LE, readU16BE, AF_INET, AF_INET6,
      NI_NUMERICHOST] at hg ⊢
    simp [hg]

/-- Witness for C7: an unsupported family 5, and a concrete INET address
with port bytes 0,80 under a constant numeric `getnameinfo` outcome. -/
theorem sa2addrlist_spec_witness :
    sa2addrlist (fun _ _ => some [108]) [5, 0] = DecodeResult.err "bad af"
    ∧ sa2addrlist (fun _ _ => some [108]) [2, 0, 0, 80] =
      DecodeResult.ok ⟨"AF_INET", 80, [108], [108]⟩ :=
  ⟨sa2addrlist_spec.1 (fun _ _ => some [108]) [5, 0] 5 rfl (by decide)
      (by decide),
   sa2addrlist_spec.2.1 (fun _ _ => some [108]) 0 80 [] [108] rfl⟩

/-! Helper lemmas for the presentation codec. -/

theorem takeWhile_ne_zero_self (l : List Nat) (h : 0 ∉ l) :
    l.takeWhile (fun c => c != 0) = l := by
  induction l with
  | nil => rfl
  | cons x xs ih =>
    simp only [List.mem_cons, not_or] at h
    have hx : (x != 0) = true := by
      simpa [bne_iff_ne] using fun e => h.1 e.symm
    simp [List.takeWhile, hx, ih h.2]

set_option maxRecDepth 4000 in
theorem decStr_ok : ∀ b < 256, parseDec (decStr b) = some b
    ∧ 46 ∉ decStr b ∧ 0 ∉ decStr b ∧ (decStr b).length ≤ 3 := by decide

theorem hexDig_ok : ∀ x < 16, hexVal (hexDig x) = x
    ∧ isHexDigit (hexDig x) = true := by decide

theorem hexDig_ne (x : Nat) : hexDig x ≠ 0 ∧ hexDig x ≠ 58 := by
  unfold hexDig; split <;> omega

theorem splitOnByte_ne_nil (sep : Nat) (l : List Nat) :
    splitOnByte sep l ≠ [] := by
  induction l with
  | nil => simp [splitOnByte]
  | cons x xs ih =>
    cases h : splitOnByte sep xs with
    | nil => exact absurd h ih
    | cons g gs =>
      simp only [splitOnByte, h]
      split <;> simp

theorem splitOnByte_nosep (sep : Nat) (g : List Nat) (h : sep ∉ g) :
    splitOnByte sep g = [g] := by
  induction g with
  | nil => rfl
  | cons x xs ih =>
    simp only [List.mem_cons, not_or] at h
    have hx : ¬ x = sep := fun e => h.1 e.symm
    simp [splitOnByte, ih h.2, hx]

theorem splitOnByte_append (sep : Nat) (g rest : List Nat) (h : sep ∉ g) :
    splitOnByte sep (g ++ sep :: rest) = g :: splitOnByte sep rest := by
  induction g with
  | nil =>
    cases hr : splitOnByte sep rest with
    | nil => exact absurd hr (splitOnByte_ne_nil sep rest)
    | cons a as => simp [splitOnByte, hr]
  | cons x xs ih =>
    simp only [List.mem_cons, not_or] at h
    have hx : ¬ x = sep := fun e => h.1 e.symm
    simp only [List.cons_append, splitOnByte, List.append_eq]
    rw [ih h.2]
    simp [hx]

theorem splitOnByte_joinSep (sep : Nat) (gs : List (List Nat)) (hne : gs ≠ [])
    (h : ∀ g ∈ gs, sep ∉ g) : splitOnByte sep (joinSep sep gs) = gs := by
  match gs with
  | [] => exact absurd rfl hne
  | [g] => simpa [joinSep] using splitOnByte_nosep sep g (h g (by simp))
  | g :: g2 :: rest =>
    have ih := splitOnByte_joinSep sep (g2 :: rest) (by simp)
      (fun g' hg' => h g' (List.mem_cons_of_mem _ hg'))
    calc splitOnByte sep (joinSep sep (g :: g2 :: rest))
        = splitOnByte sep (g ++ sep :: joinSep sep (g2 :: rest)) := rfl
      _ = g :: splitOnByte sep (joinSep sep (g2 :: rest)) :=
          splitOnByte_append sep g _ (h g (by simp))
      _ = g :: g2 :: rest := by rw [ih]

theorem joinSep_not_mem (sep x : Nat) (gs : List (List Nat))
    (hg : ∀ g ∈ gs, x ∉ g) (hx : x ≠ sep) : x ∉ joinSep sep gs := by
  match gs with
  | [] => simp [joinSep]
  | [g] => simpa [joinSep] using hg g (by simp)
  | g :: g2 :: rest =>
    have ih := joinSep_not_mem sep x (g2 :: rest)
      (fun g' h' => hg g' (List.mem_cons_of_mem _ h')) hx
    intro hmem
    rcases List.mem_append.1 hmem with hin | hin
    · exact hg g (by simp) hin
    · rcases List.mem_cons.1 hin with e | hin2
      · exact hx e
      · exact ih hin2

theorem joinSep_length_le (sep k : Nat) (gs : List (List Nat))
    (h : ∀ g ∈ gs, g.length ≤ k) :
    (joinSep sep gs).length ≤ (k + 1) * gs.length := by
  match gs with
  | [] => simp [joinSep]
  | [g] =>
    have := h g (by simp)
    simp only [joinSep, List.length_singleton]
    omega
  | g :: g2 :: rest =>
    have ih := joinSep_length_le sep k (g2 :: rest)
      (fun g' h' => h g' (List.mem_cons_of_mem _ h'))
    have hgl := h g (by simp)
    have e : (k + 1) * (g :: g2 :: rest).length =
        (k + 1) * (g2 :: rest).length + (k + 1) := by
      simp [List.length_cons]; ring
    rw [e]
    generalize (k + 1) * (g2 :: rest).length = q at ih ⊢
    simp only [joinSep, List.length_append, List.length_cons]
    omega

theorem parseHexGroup_hexStr4 (g : Nat) (h : g < 65536) :
    parseHexGroup (hexStr4 g) = some g := by
  have h1 : g / 4096 % 16 < 16 := Nat.mod_lt _ (by norm_num)
  have h2 : g / 256 % 16 < 16 := Nat.mod_lt _ (by norm_num)
  have h3 : g / 16 % 16 < 16 := Nat.mod_lt _ (by norm_num)
  have h4 : g % 16 < 16 := Nat.mod_lt _ (by norm_num)
  have c1 := hexDig_ok _ h1
  have c2 := hexDig_ok _ h2
  have c3 := hexDig_ok _ h3
  have c4 := hexDig_ok _ h4
  have hcond : hexStr4 g ≠ [] ∧ (hexStr4 g).length ≤ 4
      ∧ (hexStr4 g).all isHexDigit = true := by
    refine ⟨by simp [hexStr4], by simp [hexStr4], ?_⟩
    simp [hexStr4, c1.2, c2.2, c3.2, c4.2]
  simp only [parseHexGroup]
  rw [if_pos hcond]
  congr 1
  simp only [hexStr4, hexValue, List.foldl, c1.1, c2.1, c3.1, c4.1]
  omega

theorem parseGroups_map_hexStr4 (gs : List Nat) (h : ∀ g ∈ gs, g < 65536) :
    parseGroups (gs.map hexStr4) = some gs := by
  induction gs with
  | nil => rfl
  | cons g rest ih =>
    simp only [List.map_cons, parseGroups,
      parseHexGroup_hexStr4 g (h g (by simp)),
      ih (fun g' h' => h g' (List.mem_cons_of_mem _ h'))]

theorem groups16_length (addr : List Nat) :
    (groups16 addr).length = addr.length / 2 := by
  match addr with
  | [] => simp [groups16]
  | [b] => simp [groups16]
  | b0 :: b1 :: rest =>
    have ih := groups16_length rest
    simp only [groups16, List.length_cons, ih]
    omega

theorem groups16_lt (addr : List Nat) (h : ∀ b ∈ addr, b < 256) :
    ∀ g ∈ groups16 addr, g < 65536 := by
  match addr with
  | [] => simp [groups16]
  | [b] => simp [groups16]
  | b0 :: b1 :: rest =>
    have ih := groups16_lt rest (fun b hb => h b (by simp [hb]))
    intro g hg
    rcases List.mem_cons.1 hg with e | hg2
    · have hb0 := h b0 (by simp)
      have hb1 := h b1 (by simp)
      subst e; omega
    · exact ih g hg2

theorem ungroup_groups16 (addr : List Nat) (h2 : addr.length % 2 = 0)
    (hb : ∀ b ∈ addr, b < 256) : ungroup (groups16 addr) = addr := by
  match addr with
  | [] => simp [groups16, ungroup]
  | [b] => simp at h2
  | b0 :: b1 :: rest =>
    have ih := ungroup_groups16 rest (by simp at h2; omega)
      (fun b hb' => hb b (by simp [hb']))
    have hb1 := hb b1 (by simp)
    have e1 : (b0 * 256 + b1) / 256 = b0 := by omega
    have e2 : (b0 * 256 + b1) % 256 = b1 := by omega
    simp only [groups16, ungroup, e1, e2, ih]

theorem roundtrip4 (a b c d : Nat) (ha : a < 256) (hb : b < 256)
    (hc : c < 256) (hd : d < 256) :
    pton_after_ntop AF_INET [a, b, c, d] = Except.ok [a, b, c, d] := by
  have fa := decStr_ok a ha
  have fb := decStr_ok b hb
  have fc := decStr_ok c hc
  have fd := decStr_ok d hd
  have hnt : mrb_ipsocket_ntop AF_INET [a, b, c, d] =
      Except.ok (joinSep 46 [decStr a, decStr b, decStr c, decStr d]) := by
    simp [mrb_ipsocket_ntop, inet_ntop, AF_INET, AF_INET6]
  have hmem : ∀ g ∈ [decStr a, decStr b, decStr c, decStr d], (46 : Nat) ∉ g := by
    intro g hg
    simp only [List.mem_cons, List.not_mem_nil, or_false] at hg
    rcases hg with e | e | e | e <;> subst e
    · exact fa.2.1
    · exact fb.2.1
    · exact fc.2.1
    · exact fd.2.1
  have hmem0 : ∀ g ∈ [decStr a, decStr b, decStr c, decStr d], (0 : Nat) ∉ g := by
    intro g hg
    simp only [List.mem_cons, List.not_mem_nil, or_false] at hg
    rcases hg with e | e | e | e <;> subst e
    · exact fa.2.2.1
    · exact fb.2.2.1
    · exact fc.2.2.1
    · exact fd.2.2.1
  have hlg : ∀ g ∈ [decStr a, decStr b, decStr c, decStr d], g.length ≤ 3 := by
    intro g hg
    simp only [List.mem_cons, List.not_mem_nil, or_false] at hg
    rcases hg with e | e | e | e <;> subst e
    · exact fa.2.2.2
    · exact fb.2.2.2
    · exact fc.2.2.2
    · exact fd.2.2.2
  have hlen : (joinSep 46 [decStr a, decStr b, decStr c, decStr d]).length ≤ 16 := by
    have := joinSep_length_le 46 3 [decStr a, decStr b, decStr c, decStr d] hlg
    simpa using this
  have h0 : (0 : Nat) ∉ joinSep 46 [decStr a, decStr b, decStr c, decStr d] :=
    joinSep_not_mem 46 0 _ hmem0 (by decide)
  have hsplit : splitOnByte 46 (joinSep 46 [decStr a, decStr b, decStr c, decStr d])
      = [decStr a, decStr b, decStr c, decStr d] :=
    splitOnByte_joinSep 46 _ (by simp) hmem
  have hnle : ¬ (joinSep 46 [decStr a, decStr b, decStr c, decStr d]).length > 49 := by
    omega
  simp only [pton_after_ntop, hnt, mrb_ipsocket_pton]
  rw [if_neg hnle]
  simp [AF_INET, AF_INET6, takeWhile_ne_zero_self _ h0, inet_pton, hsplit,
    fa.1, fb.1, fc.1, fd.1]

theorem roundtrip6 (addr : List Nat) (hl : addr.length = 16)
    (hbnd : ∀ b ∈ addr, b < 256) :
    pton_after_ntop AF_INET6 addr = Except.ok addr := by
  have hg16 : (groups16 addr).length = 8 := by rw [groups16_length, hl]
  have hglt := groups16_lt addr hbnd
  have hnt : mrb_ipsocket_ntop AF_INET6 addr =
      Except.ok (joinSep 58 ((groups16 addr).map hexStr4)) := by
    simp [mrb_ipsocket_ntop, inet_ntop, AF_INET, AF_INET6, hl]
  have hnosep : ∀ g ∈ (groups16 addr).map hexStr4, (58 : Nat) ∉ g := by
    intro g hgm
    simp only [List.mem_map] at hgm
    obtain ⟨x, _, e⟩ := hgm
    subst e
    intro hc
    simp only [hexStr4, List.mem_cons, List.not_mem_nil, or_false] at hc
    rcases hc with e | e | e | e <;> exact (hexDig_ne _).2 e.symm
  have hno0 : ∀ g ∈ (groups16 addr).map hexStr4, (0 : Nat) ∉ g := by
    intro g hgm
    simp only [List.mem_map] at hgm
    obtain ⟨x, _, e⟩ := hgm
    subst e
    intro hc
    simp only [hexStr4, List.mem_cons, List.not_mem_nil, or_false] at hc
    rcases hc with e | e | e | e <;> exact (hexDig_ne _).1 e.symm
  have hlg : ∀ g ∈ (groups16 addr).map hexStr4, g.length ≤ 4 := by
    intro g hgm
    simp only [List.mem_map] at hgm
    obtain ⟨x, _, e⟩ := hgm
    subst e
    simp [hexStr4]
  have hlen : (joinSep 58 ((groups16 addr).map hexStr4)).length ≤ 40 := by
    have := joinSep_length_le 58 4 ((groups16 addr).map hexStr4) hlg
    rw [List.length_map, hg16] at this
    simpa using this
  have h0 : (0 : Nat) ∉ joinSep 58 ((groups16 addr).map hexStr4) :=
    joinSep_not_mem 58 0 _ hno0 (by decide)
  have hne : (groups16 addr).map hexStr4 ≠ [] := by
    intro e
    have := congrArg List.length e
    simp [hg16] at this
  have hsplit : splitOnByte 58 (joinSep 58 ((groups16 addr).map hexStr4))
      = (groups16 addr).map hexStr4 :=
    splitOnByte_joinSep 58 _ hne hnosep
  have hpg : parseGroups ((groups16 addr).map hexStr4) = some (groups16 addr) :=
    parseGroups_map_hexStr4 _ hglt
  have hug : ungroup (groups16 addr) = addr :=
    ungroup_groups16 addr (by omega) hbnd
  have hnle : ¬ (joinSep 58 ((groups16 addr).map hexStr4)).length > 49 := by
    omega
  simp only [pton_after_ntop, hnt, mrb_ipsocket_pton]
  rw [if_neg hnle]
  simp [AF_INET, AF_INET6, takeWhile_ne_zero_self _ h0, inet_pton, hsplit,
    hpg, hg16, hug]

/-- C6: the numeric presentation round trip of `IPSocket.ntop` /
`IPSocket.pton`: every 4-byte INET address and every 16-byte INET6 address
parses back to exactly its original bytes, and in particular four zero
bytes print as "0.0.0.0" and "0.0.0.0" parses to four zero bytes. -/
theorem ntop_pton_roundtrip :
    (∀ addr : List Nat, addr.length = 4 → (∀ b ∈ addr, b < 256) →
       pton_after_ntop AF_INET addr = Except.ok addr)
    ∧ (∀ addr : List Nat, addr.length = 16 → (∀ b ∈ addr, b < 256) →
       pton_after_ntop AF_INET6 addr = Except.ok addr)
    ∧ mrb_ipsocket_ntop AF_INET [0, 0, 0, 0] =
        Except.ok [48, 46, 48, 46, 48, 46, 48]
    ∧ mrb_ipsocket_pton AF_INET [48, 46, 48, 46, 48, 46, 48] =
        Except.ok [0, 0, 0, 0] := by
  refine ⟨fun addr hl hb => ?_, fun addr hl hb => roundtrip6 addr hl hb,
    rfl, rfl⟩
  rcases addr with _ | ⟨a, _ | ⟨b, _ | ⟨c, _ | ⟨d, _ | ⟨e, tail⟩⟩⟩⟩⟩ <;>
    simp only [List.length_cons, List.length_nil] at hl <;> try omega
  exact roundtrip4 a b c d (hb a (by simp)) (hb b (by simp)) (hb c (by simp))
    (hb d (by simp))

/-- Witness for C6 at the concrete addresses 1.2.3.4 and sixteen 7 bytes. -/
theorem ntop_pton_roundtrip_witness :
    pton_after_ntop AF_INET [1, 2, 3, 4] = Except.ok [1, 2, 3, 4]
    ∧ pton_after_ntop AF_INET6 (List.replicate 16 7) =
        Except.ok (List.replicate 16 7) :=
  ⟨ntop_pton_roundtrip.1 [1, 2, 3, 4] (by decide) (by decide),
   ntop_pton_roundtrip.2.1 (List.replicate 16 7) (by decide) (by decide)⟩
